import Mathlib

/-
Verification of the arena (bump) allocator from src/src/lib.rs and src/src/box.rs.

The embedding models machine pointers and usize values as natural numbers
below 2^64, with overflow made explicit where the Rust code performs
checked or wrapping arithmetic.  Stateful methods on ArenaAlloc become
functions returning the result together with the updated state, and the
value-level effects that matter to the claims (writing a value into the
arena, running a destructor in place, dropping a not-yet-inserted value)
are recorded as an explicit event trace.
-/

namespace ArenaModel

/-- Number of values of the 64-bit usize type. -/
def USIZE : Nat := 2 ^ 64

/-- Rust layout descriptor (std::alloc::Layout): a size in bytes and a
power-of-two alignment.  Rust guarantees the alignment of a Layout is a
power of two representable in usize, hence 2^k with k at most 63. -/
structure Layout where
  size : Nat
  align : Nat
  align_pow : ∃ k, k ≤ 63 ∧ align = 2 ^ k

/-- usize::checked_add. -/
def checkedAdd (a b : Nat) : Option Nat :=
  if a + b < USIZE then some (a + b) else none

/-- Wrapping subtraction on usize (two's complement), the release-mode
semantics of the subtraction in try_alloc_layout.  With overflow checks
enabled the same underflow would abort instead; the claims that depend on
this point fail either way. -/
def wrapSub (a b : Nat) : Nat :=
  (a + (USIZE - b % USIZE)) % USIZE

/-- The allocation cursor (struct ArenaAlloc): head is the next free
address, last the address of the last byte of the buffer. -/
structure ArenaAlloc where
  head : Nat
  last : Nat
deriving DecidableEq, Repr

/-- The arena (struct Arena): base address and length of the buffer.
Arena::new asserts that the length is nonzero; theorems carry that as a
hypothesis. -/
structure Arena where
  buffer : Nat
  length : Nat
deriving DecidableEq, Repr

/-- Arena::begin_alloc: head starts at the buffer base, last is
buffer.add(length - 1), the address of the final byte. -/
def Arena.beginAlloc (a : Arena) : ArenaAlloc :=
  ⟨a.buffer, a.buffer + (a.length - 1)⟩

/-- ArenaAlloc::try_alloc_layout, translated line by line:

* a zero-size layout immediately returns NonNull::dangling().as_ptr();
  the call infers NonNull of u8, whose dangling address is
  align_of::<u8>() = 1, and the cursor is untouched;
* otherwise head is replaced by
  (head.checked_add(align - 1)?) & !(align - 1), where ? propagates the
  None of checked_add before the assignment, and ! is 64-bit complement,
  so the mask is USIZE - align;
* if last - head <= size (usize subtraction, modelled by wrapSub) the
  function returns None with the rounded head left in place;
* otherwise it returns the rounded head and advances head by size. -/
def tryAllocLayout (s : ArenaAlloc) (l : Layout) : Option Nat × ArenaAlloc :=
  if l.size = 0 then (some 1, s) else
  match checkedAdd s.head (l.align - 1) with
  | none => (none, s)
  | some t =>
    let head2 := t &&& (USIZE - l.align)
    if wrapSub s.last head2 ≤ l.size then (none, ⟨head2, s.last⟩)
    else (some head2, ⟨head2 + l.size, s.last⟩)

/-- Arithmetic form of the bitmask rounding: the align-rounded head, the
least multiple of align that is at least h (for align dividing 2^63). -/
def alignedHead (h a : Nat) : Nat :=
  (h + (a - 1)) - (h + (a - 1)) % a

/-- A run of the cursor over a list of layouts: the list of per-request
results (in order) together with the final cursor state. -/
def allocAll (s : ArenaAlloc) : List Layout → List (Option Nat) × ArenaAlloc
  | [] => ([], s)
  | l :: ls =>
    ((tryAllocLayout s l).1 :: (allocAll (tryAllocLayout s l).2 ls).1,
      (allocAll (tryAllocLayout s l).2 ls).2)

/-- The cursor states observed after each request of a run. -/
def allocStates (s : ArenaAlloc) : List Layout → List ArenaAlloc
  | [] => []
  | l :: ls => (tryAllocLayout s l).2 :: allocStates (tryAllocLayout s l).2 ls

/-- Spec-side definition, for refinement comparison: the head after one
request as the spec describes the algorithm, namely round head up to the
alignment and advance by the size, with zero-size requests consuming
nothing. -/
def specStepHead (h : Nat) (l : Layout) : Nat :=
  if l.size = 0 then h else alignedHead h l.align + l.size

/-- Spec-side definition, for refinement comparison: the head after a
whole sequence of requests; specFinalHead h ls - h is the total aligned
size of the sequence started at address h. -/
def specFinalHead (h : Nat) : List Layout → Nat
  | [] => h
  | l :: ls => specFinalHead (specStepHead h l) ls

/-- Boolean side condition on a run: each nonzero-size request rounds the
head without overflowing and the rounded head stays at or below the
limit. -/
def roundingsOk (s : ArenaAlloc) : List Layout → Bool
  | [] => true
  | l :: ls =>
    (l.size == 0 ||
      (decide (s.head + (l.align - 1) < USIZE) &&
        decide (alignedHead s.head l.align ≤ s.last))) &&
    roundingsOk (tryAllocLayout s l).2 ls

/-- Value-level effects of the insertion paths that the claims are about:
a value written into an arena slot, a destructor run in place over a
slot, and a value dropped before ever reaching the arena. -/
inductive Event (α : Type) where
  | write (addr : Nat) (v : α)
  | dropInPlace (addr : Nat)
  | dropValue (v : α)
deriving DecidableEq, Repr

/-- ArenaAlloc::try_insert, which forwards to try_insert_with with an
FnOnce closure capturing the value.  On the success path the closure is
invoked and ptr.write stores the value (a write event); on the None path
of the match the closure is dropped without being called, so the captured
value is dropped (a dropValue event) and nothing is written. -/
def tryInsert {α : Type} (s : ArenaAlloc) (l : Layout) (v : α) :
    Option Nat × ArenaAlloc × List (Event α) :=
  match tryAllocLayout s l with
  | (some p, s2) => (some p, s2, [Event.write p v])
  | (none, s2) => (none, s2, [Event.dropValue v])

/-- The for loop of try_insert_all: ptr is the address of the first
element, n the count inserted so far.  A successful try_insert is
mem::forgotten (no drop event); on a failed try_insert the loop runs
drop_in_place over ptr.add(i) for i in 0..n, where ptr.add on a typed
pointer advances by i times the element size, and returns None. -/
def tryInsertAllLoop {α : Type} (l : Layout) (ptr : Nat) :
    List α → Nat → ArenaAlloc → List (Event α) →
    Option (Nat × Nat) × ArenaAlloc × List (Event α)
  | [], n, s, tr => (some (ptr, n), s, tr)
  | item :: rest, n, s, tr =>
    match tryInsert s l item with
    | (some _, s2, ev) => tryInsertAllLoop l ptr rest (n + 1) s2 (tr ++ ev)
    | (none, s2, ev) =>
      (none, s2,
        tr ++ ev ++ (List.range n).map (fun i => Event.dropInPlace (ptr + i * l.size)))

/-- Modelled from the spec: ArenaBox::empty_slice is called by
try_insert_all on an empty iterator but its definition is not under src.
The spec says the empty iterator yields a handle over zero elements; the
base address of an empty sequence handle is immaterial, and the model
uses the dangling address for the element type, namely its alignment. -/
def emptySliceAddr (l : Layout) : Nat := l.align

/-- ArenaAlloc::try_insert_all over the list of items the iterator
yields.  The first item is inserted with the question-mark operator, so a
failure there surfaces immediately; afterwards the loop runs, and on
success the run is reinterpreted as one sequence handle (base address and
element count). -/
def tryInsertAll {α : Type} (s : ArenaAlloc) (l : Layout) :
    List α → Option (Nat × Nat) × ArenaAlloc × List (Event α)
  | [] => (some (emptySliceAddr l, 0), s, [])
  | first :: rest =>
    match tryInsert s l first with
    | (none, s2, ev) => (none, s2, ev)
    | (some p, s2, ev) => tryInsertAllLoop l p rest 1 s2 ev

/-- Spec-side definition, for refinement comparison: the trace of writes
of a contiguous run laid out in iterator order with the given stride. -/
def writesFrom {α : Type} (addr size : Nat) : List α → List (Event α)
  | [] => []
  | v :: vs => Event.write addr v :: writesFrom (addr + size) size vs

/-- ArenaBox: an owning handle holding a raw pointer into the arena. -/
structure ArenaBoxM (α : Type) where
  buffer : Nat
deriving DecidableEq, Repr

/-- ArenaBox::into_raw: wraps self in ManuallyDrop, which suppresses the
Drop impl, and reads out the pointer; no destructor event occurs. -/
def ArenaBoxM.intoRaw {α : Type} (b : ArenaBoxM α) : Nat × List (Event α) :=
  (b.buffer, [])

/-- ArenaBox::from_raw: rebuilds a handle around a raw pointer. -/
def ArenaBoxM.fromRaw {α : Type} (p : Nat) : ArenaBoxM α :=
  ⟨p⟩

/-- The Drop impl of ArenaBox: one drop_in_place of the held pointer and
nothing else (no deallocation). -/
def ArenaBoxM.dropRun {α : Type} (b : ArenaBoxM α) : List (Event α) :=
  [Event.dropInPlace b.buffer]

/-- ArenaBox::as_ref dereferences the held pointer. -/
def ArenaBoxM.asRefAddr {α : Type} (b : ArenaBoxM α) : Nat :=
  b.buffer

/-- Layout of a 1-byte-aligned blob of eight bytes. -/
def layout8 : Layout :=
  ⟨8, 1, ⟨0, by norm_num, by norm_num⟩⟩

/-- Layout of u64: size 8, align 8. -/
def layoutU64 : Layout :=
  ⟨8, 8, ⟨3, by norm_num, by norm_num⟩⟩

/-- Layout of a 1-byte type with a 32-byte alignment requirement. -/
def layoutBig : Layout :=
  ⟨1, 32, ⟨5, by norm_num, by norm_num⟩⟩

/-- Layout of a zero-sized type with a 4-byte alignment requirement. -/
def layoutZst4 : Layout :=
  ⟨0, 4, ⟨2, by norm_num, by norm_num⟩⟩

/-- Clearing the low k bits with the complement mask equals truncating to
a multiple of 2^k, for inputs below 2^64. -/
theorem land_mask_eq (t k : Nat) (ht : t < 2 ^ 64) (hk : k ≤ 64) :
    t &&& (2 ^ 64 - 2 ^ k) = t - t % 2 ^ k := by
  have hmask : 2 ^ 64 - 2 ^ k = (2 ^ (64 - k) - 1) <<< k := by
    rw [Nat.shiftLeft_eq, Nat.sub_mul, one_mul, ← Nat.pow_add]
    congr 2
    omega
  have hrhs : t - t % 2 ^ k = (t >>> k) <<< k := by
    rw [Nat.shiftLeft_eq, Nat.shiftRight_eq_div_pow]
    have h1 : 2 ^ k * (t / 2 ^ k) + t % 2 ^ k = t := Nat.div_add_mod t (2 ^ k)
    have h2 : t / 2 ^ k * 2 ^ k = 2 ^ k * (t / 2 ^ k) := Nat.mul_comm _ _
    omega
  rw [hmask, hrhs]
  apply Nat.eq_of_testBit_eq
  intro i
  rw [Nat.testBit_and, Nat.testBit_shiftLeft, Nat.testBit_shiftLeft,
    Nat.testBit_shiftRight, Nat.testBit_two_pow_sub_one]
  by_cases hik : k ≤ i
  · have hcancel : k + (i - k) = i := by omega
    by_cases hi64 : i < 64
    · have hlt : i - k < 64 - k := by omega
      simp [ge_iff_le, hik, hlt, hcancel]
    · have h0 : t.testBit i = false := by
        apply Nat.testBit_lt_two_pow
        calc t < 2 ^ 64 := ht
        _ ≤ 2 ^ i := Nat.pow_le_pow_right (by norm_num) (by omega)
      have hlt : ¬ (i - k < 64 - k) := by omega
      simp [ge_iff_le, hik, hlt, hcancel, h0]
  · simp [ge_iff_le, hik]

theorem Layout.align_pos (l : Layout) : 0 < l.align := by
  obtain ⟨k, _, hk⟩ := l.align_pow
  rw [hk]
  exact Nat.pos_pow_of_pos k (by norm_num)

theorem checkedAdd_some {a b t : Nat} (h : checkedAdd a b = some t) :
    t = a + b ∧ a + b < USIZE := by
  unfold checkedAdd at h
  by_cases hov : a + b < USIZE
  · rw [if_pos hov] at h
    exact ⟨(Option.some.injEq _ _ ▸ h).symm, hov⟩
  · rw [if_neg hov] at h
    exact absurd h (by simp)

theorem alignedHead_ge (h a : Nat) (ha : 0 < a) : h ≤ alignedHead h a := by
  unfold alignedHead
  have := Nat.mod_lt (h + (a - 1)) ha
  omega

theorem alignedHead_le (h a : Nat) : alignedHead h a ≤ h + (a - 1) := by
  unfold alignedHead
  omega

theorem alignedHead_dvd (h a : Nat) : a ∣ alignedHead h a := by
  unfold alignedHead
  have h1 : a * ((h + (a - 1)) / a) + (h + (a - 1)) % a = h + (a - 1) :=
    Nat.div_add_mod _ a
  have h2 : (h + (a - 1)) - (h + (a - 1)) % a = a * ((h + (a - 1)) / a) := by
    omega
  rw [h2]
  exact Dvd.intro _ rfl

theorem alignedHead_of_dvd (h a : Nat) (ha : 0 < a) (hd : a ∣ h) :
    alignedHead h a = h := by
  unfold alignedHead
  obtain ⟨c, hc⟩ := hd
  rcases Nat.eq_or_lt_of_le ha with h1 | h2
  · have : a = 1 := h1.symm
    subst this
    simp [Nat.mod_one]
  · have hm : (h + (a - 1)) % a = a - 1 := by
      rw [hc, Nat.mul_add_mod]
      exact Nat.mod_eq_of_lt (by omega)
    omega

/-- On a zero-size layout the cursor is untouched and the dangling address
1 is returned. -/
theorem tryAllocLayout_zero (s : ArenaAlloc) (l : Layout) (h0 : l.size = 0) :
    tryAllocLayout s l = (some 1, s) := by
  unfold tryAllocLayout
  rw [if_pos h0]

/-- When the checked addition of the rounding overflows, the function
returns None with the cursor untouched. -/
theorem tryAllocLayout_ovf (s : ArenaAlloc) (l : Layout) (h0 : l.size ≠ 0)
    (hov : USIZE ≤ s.head + (l.align - 1)) :
    tryAllocLayout s l = (none, s) := by
  unfold tryAllocLayout
  rw [if_neg h0]
  have hc : checkedAdd s.head (l.align - 1) = none := by
    unfold checkedAdd
    rw [if_neg (by omega)]
  rw [hc]

/-- Arithmetic characterization of the non-degenerate path: the bitmask
computation equals the align-rounded head. -/
theorem tryAllocLayout_eq (s : ArenaAlloc) (l : Layout) (h0 : l.size ≠ 0)
    (hov : s.head + (l.align - 1) < USIZE) :
    tryAllocLayout s l =
      (if wrapSub s.last (alignedHead s.head l.align) ≤ l.size
        then (none, ⟨alignedHead s.head l.align, s.last⟩)
        else (some (alignedHead s.head l.align),
          ⟨alignedHead s.head l.align + l.size, s.last⟩)) := by
  obtain ⟨k, hk63, hk⟩ := l.align_pow
  unfold tryAllocLayout
  rw [if_neg h0]
  have hc : checkedAdd s.head (l.align - 1) = some (s.head + (l.align - 1)) := by
    unfold checkedAdd
    rw [if_pos hov]
  rw [hc]
  have hbridge : (s.head + (l.align - 1)) &&& (USIZE - l.align) =
      alignedHead s.head l.align := by
    unfold alignedHead
    rw [hk]
    have hov2 : s.head + (2 ^ k - 1) < 2 ^ 64 := by
      rw [← hk]
      exact hov
    exact land_mask_eq _ k hov2 (by omega)
  simp only [hbridge]

/-- try_alloc_layout never modifies the last field of the cursor. -/
theorem tryAllocLayout_last (s : ArenaAlloc) (l : Layout) :
    ((tryAllocLayout s l).2).last = s.last := by
  unfold tryAllocLayout
  split
  · rfl
  · cases hc : checkedAdd s.head (l.align - 1) with
    | none => rfl
    | some t =>
      simp only []
      split
      · rfl
      · rfl

/-- The head of the cursor never decreases, on any path of
try_alloc_layout, failures included. -/
theorem tryAllocLayout_head_mono (s : ArenaAlloc) (l : Layout) :
    s.head ≤ ((tryAllocLayout s l).2).head := by
  by_cases h0 : l.size = 0
  · rw [tryAllocLayout_zero s l h0]
  · by_cases hov : s.head + (l.align - 1) < USIZE
    · rw [tryAllocLayout_eq s l h0 hov]
      have hge := alignedHead_ge s.head l.align l.align_pos
      split
      · exact hge
      · exact le_trans hge (Nat.le_add_right _ _)
    · rw [tryAllocLayout_ovf s l h0 (by omega)]

theorem wrapSub_of_le (a b : Nat) (ha : a < USIZE) (hba : b ≤ a) :
    wrapSub a b = a - b := by
  unfold wrapSub
  have hb : b % USIZE = b := Nat.mod_eq_of_lt (lt_of_le_of_lt hba ha)
  rw [hb]
  have hsplit : a + (USIZE - b) = USIZE + (a - b) := by omega
  rw [hsplit, Nat.add_mod_left]
  exact Nat.mod_eq_of_lt (by omega)

theorem le_specStepHead (h : Nat) (l : Layout) : h ≤ specStepHead h l := by
  unfold specStepHead
  split
  · exact le_refl h
  · exact le_trans (alignedHead_ge h l.align l.align_pos) (Nat.le_add_right _ _)

theorem le_specFinalHead (ls : List Layout) : ∀ h : Nat, h ≤ specFinalHead h ls := by
  induction ls with
  | nil => intro h; exact le_refl h
  | cons l ls ih =>
    intro h
    exact le_trans (le_specStepHead h l) (ih (specStepHead h l))

theorem allocAll_success_aux (b L : Nat) (hL : 0 < L) (hbound : b + L ≤ 2 ^ 63)
    (ls : List Layout) :
    ∀ h : Nat, specFinalHead h ls ≤ b + L - 2 →
      ((allocAll ⟨h, b + (L - 1)⟩ ls).1.all Option.isSome) = true := by
  have h63 : (2:Nat) ^ 63 = 9223372036854775808 := by norm_num
  have husize : USIZE = 2 ^ 64 := rfl
  have h64 : (2:Nat) ^ 64 = 18446744073709551616 := by norm_num
  rw [h63] at hbound
  induction ls with
  | nil =>
    intro h _
    rfl
  | cons l ls ih =>
    intro h htotal
    have htotal2 : specFinalHead (specStepHead h l) ls ≤ b + L - 2 := htotal
    have hstep_le : specStepHead h l ≤ b + L - 2 :=
      le_trans (le_specFinalHead ls _) htotal2
    have hh : h ≤ b + L - 2 := le_trans (le_specStepHead h l) hstep_le
    by_cases h0 : l.size = 0
    · have hz := tryAllocLayout_zero ⟨h, b + (L - 1)⟩ l h0
      have hstep_eq : specStepHead h l = h := if_pos h0
      rw [hstep_eq] at htotal2
      simp only [allocAll, hz, List.all_cons, Option.isSome_some, Bool.true_and]
      exact ih h htotal2
    · obtain ⟨k, hk63, hkal⟩ := l.align_pow
      have halign : l.align ≤ 2 ^ 63 := by
        rw [hkal]
        exact Nat.pow_le_pow_right (by norm_num) hk63
      rw [h63] at halign
      have hsize1 : 1 ≤ l.size := Nat.one_le_iff_ne_zero.mpr h0
      have hstep_eq : specStepHead h l = alignedHead h l.align + l.size := if_neg h0
      have hr_le : alignedHead h l.align + l.size ≤ b + L - 2 := by
        rw [← hstep_eq]
        exact hstep_le
      have hge : h ≤ alignedHead h l.align := alignedHead_ge _ _ l.align_pos
      have hov : h + (l.align - 1) < USIZE := by
        rw [husize, h64]
        omega
      have halloc := tryAllocLayout_eq ⟨h, b + (L - 1)⟩ l h0 hov
      have hcap : wrapSub (b + (L - 1)) (alignedHead h l.align) =
          (b + (L - 1)) - alignedHead h l.align := by
        apply wrapSub_of_le
        · rw [husize, h64]
          omega
        · omega
      have hsucc : ¬ (wrapSub (b + (L - 1)) (alignedHead h l.align) ≤ l.size) := by
        rw [hcap]
        omega
      rw [if_neg hsucc] at halloc
      simp only [allocAll, halloc, List.all_cons, Option.isSome_some, Bool.true_and]
      apply ih
      rw [hstep_eq] at htotal2
      exact htotal2

/-- Claim C1, amended: for an arena of base b and length L placed in real
address space (b + L at most 2^63), every sequence of requests whose
total aligned size is at most L - 2 bytes fully succeeds.  The bound is
L - 2, not L as claimed: the capacity test of try_alloc_layout is
last - head <= size with last the address of the final byte, so the
usable capacity falls two bytes short of the length. -/
theorem claim_C1 (b L : Nat) (ls : List Layout) (hL : 0 < L)
    (hbound : b + L ≤ 2 ^ 63)
    (htotal : specFinalHead b ls ≤ b + L - 2) :
    ((allocAll (Arena.beginAlloc ⟨b, L⟩) ls).1.all Option.isSome) = true :=
  allocAll_success_aux b L hL hbound ls b htotal

/-- Claim C1, counterexample to the claim as stated: one insertion of
eight 1-aligned bytes into an arena of length 8 has total aligned size
8, at most the arena length, yet the allocation fails. -/
theorem claim_C1_counterexample :
    specFinalHead 0 [layout8] - 0 ≤ 8 ∧
    ((allocAll (Arena.beginAlloc ⟨0, 8⟩) [layout8]).1.all Option.isSome) = false := by
  constructor
  · decide
  · decide

/-- Claim C1 witness: a u64 insertion into a length-16 arena at base 0
has total aligned size 8, at most 16 - 2, and the run succeeds. -/
theorem claim_C1_witness :
    0 < 16 ∧ 0 + 16 ≤ 2 ^ 63 ∧ specFinalHead 0 [layoutU64] ≤ 0 + 16 - 2 ∧
    ((allocAll (Arena.beginAlloc ⟨0, 16⟩) [layoutU64]).1.all Option.isSome) = true :=
  ⟨by decide, by decide, by decide,
    claim_C1 0 16 [layoutU64] (by decide) (by decide) (by decide)⟩

theorem allocStates_chain (s : ArenaAlloc) (ls : List Layout) :
    List.Chain' (fun x y => x.head ≤ y.head) (s :: allocStates s ls) := by
  induction ls generalizing s with
  | nil => simp [allocStates]
  | cons l ls ih =>
    rw [allocStates, List.chain'_cons]
    exact ⟨tryAllocLayout_head_mono s l, ih _⟩

theorem allocStates_last_eq (s : ArenaAlloc) (ls : List Layout) :
    ∀ s2 ∈ allocStates s ls, s2.last = s.last := by
  induction ls generalizing s with
  | nil =>
    intro s2 h
    simp [allocStates] at h
  | cons l ls ih =>
    intro s2 h
    rw [allocStates] at h
    rcases List.mem_cons.mp h with h1 | h2
    · rw [h1]
      exact tryAllocLayout_last s l
    · rw [ih _ _ h2]
      exact tryAllocLayout_last s l

theorem allocStates_head_lb (s : ArenaAlloc) (ls : List Layout) :
    ∀ s2 ∈ allocStates s ls, s.head ≤ s2.head := by
  induction ls generalizing s with
  | nil =>
    intro s2 h
    simp [allocStates] at h
  | cons l ls ih =>
    intro s2 h
    rw [allocStates] at h
    rcases List.mem_cons.mp h with h1 | h2
    · rw [h1]
      exact tryAllocLayout_head_mono s l
    · exact le_trans (tryAllocLayout_head_mono s l) (ih _ _ h2)

theorem allocStates_head_ub (s : ArenaAlloc) (ls : List Layout)
    (hlt : s.last < USIZE) (hinv : s.head ≤ s.last)
    (hok : roundingsOk s ls = true) :
    ∀ s2 ∈ allocStates s ls, s2.head ≤ s2.last := by
  induction ls generalizing s with
  | nil =>
    intro s2 h
    simp [allocStates] at h
  | cons l ls ih =>
    intro s2 hmem
    rw [roundingsOk, Bool.and_eq_true] at hok
    obtain ⟨hok1, hokrest⟩ := hok
    have hstep : (tryAllocLayout s l).2.head ≤ s.last := by
      by_cases h0 : l.size = 0
      · rw [tryAllocLayout_zero s l h0]
        exact hinv
      · have hc2 : (decide (s.head + (l.align - 1) < USIZE) &&
            decide (alignedHead s.head l.align ≤ s.last)) = true := by
          rw [Bool.or_eq_true] at hok1
          rcases hok1 with hc | hc
          · exact absurd (by simpa using hc) h0
          · exact hc
        rw [Bool.and_eq_true] at hc2
        obtain ⟨hovb, hrdb⟩ := hc2
        have hov := of_decide_eq_true hovb
        have hrd := of_decide_eq_true hrdb
        have halloc := tryAllocLayout_eq s l h0 hov
        by_cases hcap : wrapSub s.last (alignedHead s.head l.align) ≤ l.size
        · rw [if_pos hcap] at halloc
          rw [halloc]
          exact hrd
        · rw [if_neg hcap] at halloc
          rw [halloc]
          have hws := wrapSub_of_le s.last (alignedHead s.head l.align) hlt hrd
          rw [hws] at hcap
          show alignedHead s.head l.align + l.size ≤ s.last
          omega
    rw [allocStates] at hmem
    rcases List.mem_cons.mp hmem with h1 | h2
    · rw [h1, tryAllocLayout_last]
      exact hstep
    · apply ih (tryAllocLayout s l).2 _ _ hokrest s2 h2
      · rw [tryAllocLayout_last]
        exact hlt
      · rw [tryAllocLayout_last]
        exact hstep

/-- Claim C2, amended: the head of a cursor never decreases within its
lifetime (the monotone chain below holds with no side condition), and
provided every nonzero-size request rounds the head without overflow to
an address at most the limit, the invariant also holds that after each
operation the head is at least the buffer base, at most the limit, and
at most buffer + length, the limit being buffer + length - 1.  Without
that proviso the invariant fails: an over-aligned request pushes the
head past the limit (see the counterexample). -/
theorem claim_C2 (a : Arena) (ls : List Layout) (hL : 0 < a.length)
    (haddr : a.buffer + a.length ≤ USIZE)
    (hok : roundingsOk a.beginAlloc ls = true) :
    List.Chain' (fun x y => x.head ≤ y.head)
      (a.beginAlloc :: allocStates a.beginAlloc ls) ∧
    ∀ s2 ∈ allocStates a.beginAlloc ls,
      a.buffer ≤ s2.head ∧ s2.head ≤ s2.last ∧
      s2.last = a.buffer + (a.length - 1) ∧ s2.head ≤ a.buffer + a.length := by
  have hhead : (a.beginAlloc).head = a.buffer := rfl
  have hlast : (a.beginAlloc).last = a.buffer + (a.length - 1) := rfl
  constructor
  · exact allocStates_chain _ _
  · intro s2 hmem
    have hl2 := allocStates_last_eq a.beginAlloc ls s2 hmem
    rw [hlast] at hl2
    have hlb := allocStates_head_lb a.beginAlloc ls s2 hmem
    rw [hhead] at hlb
    have hub : s2.head ≤ s2.last := by
      apply allocStates_head_ub a.beginAlloc ls _ _ hok s2 hmem
      · rw [hlast]
        omega
      · rw [hhead, hlast]
        omega
    refine ⟨hlb, hub, hl2, ?_⟩
    omega

/-- Claim C2, counterexample to the claim as stated: in an arena of base
1 and length 16 (limit 16), a single request for a 32-byte-aligned byte
rounds the head to 32 and succeeds, leaving head 33, which exceeds both
the limit 16 and buffer + length = 17. -/
theorem claim_C2_counterexample :
    allocStates (Arena.beginAlloc ⟨1, 16⟩) [layoutBig] = [⟨33, 16⟩] ∧
    ¬ ((33:Nat) ≤ 16) ∧ ¬ ((33:Nat) ≤ 1 + 16) := by
  refine ⟨by decide, by decide, by decide⟩

/-- Claim C2 witness: two u64 requests in a length-16 arena at base 0
keep every intermediate state within bounds. -/
theorem claim_C2_witness :
    0 < (16:Nat) ∧ (0:Nat) + 16 ≤ USIZE ∧
    roundingsOk (Arena.beginAlloc ⟨0, 16⟩) [layoutU64, layoutU64] = true ∧
    (List.Chain' (fun x y => x.head ≤ y.head)
      (Arena.beginAlloc ⟨0, 16⟩ ::
        allocStates (Arena.beginAlloc ⟨0, 16⟩) [layoutU64, layoutU64]) ∧
    ∀ s2 ∈ allocStates (Arena.beginAlloc ⟨0, 16⟩) [layoutU64, layoutU64],
      (0:Nat) ≤ s2.head ∧ s2.head ≤ s2.last ∧
      s2.last = 0 + (16 - 1) ∧ s2.head ≤ 0 + 16) :=
  ⟨by decide, by decide, by decide,
    claim_C2 ⟨0, 16⟩ [layoutU64, layoutU64] (by decide) (by decide) (by decide)⟩

/-- Claim C3, amended: try_insert fails exactly when the underlying
allocation fails, and on failure nothing is written into the arena; but
the value is not returned to the caller: try_insert moves it into an
FnOnce closure, and on the None path that closure is dropped uncalled,
running the destructor of the captured value. -/
theorem claim_C3 {α : Type} (s : ArenaAlloc) (l : Layout) (v : α) :
    ((tryInsert s l v).1 = none ↔ (tryAllocLayout s l).1 = none) ∧
    ((tryInsert s l v).1 = none →
      (tryInsert s l v).2.2 = [Event.dropValue v] ∧
      ∀ a w, Event.write a w ∉ (tryInsert s l v).2.2) := by
  rcases hA : tryAllocLayout s l with ⟨r, s2⟩
  rcases r with _ | p
  · simp [tryInsert, hA]
  · simp [tryInsert, hA]

/-- Claim C3, counterexample to the claim as stated: inserting the value
7 into a cursor with four remaining bytes when eight are needed fails,
and the trace shows the value being dropped, not returned untouched. -/
theorem claim_C3_counterexample :
    (tryInsert ⟨0, 4⟩ layout8 (7:Nat)).1 = none ∧
    Event.dropValue 7 ∈ (tryInsert ⟨0, 4⟩ layout8 (7:Nat)).2.2 := by
  exact ⟨by decide, by decide⟩

/-- Claim C3 witness: the amended failure facts at a concrete failing
insertion. -/
theorem claim_C3_witness :
    (tryInsert ⟨0, 4⟩ layout8 (42:Nat)).1 = none ∧
    (tryInsert ⟨0, 4⟩ layout8 (42:Nat)).2.2 = [Event.dropValue 42] :=
  ⟨by decide, ((claim_C3 ⟨0, 4⟩ layout8 (42:Nat)).2 (by decide)).1⟩

/-- Claim C6, the failing input: a zero-sized layout of alignment 4
makes try_alloc_layout return NonNull dangling for u8, address 1, which
is not congruent to 0 modulo 4, contradicting the documented guarantee
of try_alloc that the returned pointer is aligned. -/
theorem claim_C6 :
    tryAllocLayout ⟨0, 100⟩ layoutZst4 = (some 1, ⟨0, 100⟩) ∧
    layoutZst4.align = 4 ∧ ¬ ((4:Nat) ∣ 1) := by
  exact ⟨by decide, by decide, by decide⟩

/-- Claim C7: a zero-size request always succeeds regardless of the
remaining space, returns the dangling address, and leaves the cursor,
its head in particular, untouched. -/
theorem claim_C7 (s : ArenaAlloc) (l : Layout) (h0 : l.size = 0) :
    tryAllocLayout s l = (some 1, s) :=
  tryAllocLayout_zero s l h0

/-- Claim C7 witness: a zero-size request on a cursor with no space left
at all still succeeds and changes nothing. -/
theorem claim_C7_witness :
    layoutZst4.size = 0 ∧ tryAllocLayout ⟨9, 9⟩ layoutZst4 = (some 1, ⟨9, 9⟩) :=
  ⟨by decide, claim_C7 ⟨9, 9⟩ layoutZst4 (by decide)⟩

/-- Claim C8: for a nonzero-size request, if rounding the head up to the
alignment would overflow the address space then try_alloc_layout returns
None with the cursor unchanged (checked_add turns overflow into out of
space, no panic and no wrap), and any successfully returned address is
the exact mathematical rounded head, never a wrapped value, hence at
least the head itself. -/
theorem claim_C8 (s : ArenaAlloc) (l : Layout) (h0 : l.size ≠ 0) :
    (USIZE ≤ s.head + (l.align - 1) → tryAllocLayout s l = (none, s)) ∧
    (∀ p s2, tryAllocLayout s l = (some p, s2) →
      p = alignedHead s.head l.align ∧ s.head ≤ p) := by
  constructor
  · intro hov
    exact tryAllocLayout_ovf s l h0 hov
  · intro p s2 h
    by_cases hov : s.head + (l.align - 1) < USIZE
    · rw [tryAllocLayout_eq s l h0 hov] at h
      by_cases hcap : wrapSub s.last (alignedHead s.head l.align) ≤ l.size
      · rw [if_pos hcap] at h
        exact absurd h (by simp)
      · rw [if_neg hcap] at h
        have hp : alignedHead s.head l.align = p := by
          have := congrArg Prod.fst h
          simpa using this
        refine ⟨hp.symm, ?_⟩
        rw [← hp]
        exact alignedHead_ge s.head l.align l.align_pos
    · rw [tryAllocLayout_ovf s l h0 (by omega)] at h
      exact absurd h (by simp)

/-- Claim C8 witness: a u64 request with the head at the top of the
address space overflows the rounding and is reported as out of space. -/
theorem claim_C8_witness :
    layoutU64.size ≠ 0 ∧
    ((USIZE ≤ 18446744073709551615 + (layoutU64.align - 1) →
      tryAllocLayout ⟨18446744073709551615, 18446744073709551615⟩ layoutU64 =
        (none, ⟨18446744073709551615, 18446744073709551615⟩)) ∧
    (∀ p s2,
      tryAllocLayout ⟨18446744073709551615, 18446744073709551615⟩ layoutU64 =
        (some p, s2) →
      p = alignedHead 18446744073709551615 layoutU64.align ∧
        18446744073709551615 ≤ p)) :=
  ⟨by decide, claim_C8 ⟨18446744073709551615, 18446744073709551615⟩ layoutU64 (by decide)⟩

/-- Claim C9: converting a handle to a raw pointer and back yields a
handle over the same address dereferencing to the same slot, and across
the conversion the destructor runs exactly once: into_raw wraps the
handle in ManuallyDrop so no destructor event occurs there, and the drop
of the reconstructed handle is the single drop_in_place. -/
theorem claim_C9 {α : Type} (b : ArenaBoxM α) :
    (ArenaBoxM.fromRaw (b.intoRaw).1 : ArenaBoxM α) = b ∧
    (ArenaBoxM.fromRaw (b.intoRaw).1 : ArenaBoxM α).asRefAddr = b.asRefAddr ∧
    (b.intoRaw).2 ++ (ArenaBoxM.fromRaw (b.intoRaw).1 : ArenaBoxM α).dropRun =
      [Event.dropInPlace b.buffer] :=
  ⟨rfl, rfl, rfl⟩

/-- Claim C10: on a capacity-check failure (nonzero size, rounding did
not overflow, the rounded head leaves too little room) the cursor head
has already been updated to the alignment-rounded address, and the last
field is unchanged; the failure is not state-neutral. -/
theorem claim_C10 (s : ArenaAlloc) (l : Layout) (h0 : l.size ≠ 0)
    (hov : s.head + (l.align - 1) < USIZE)
    (hcap : wrapSub s.last (alignedHead s.head l.align) ≤ l.size) :
    tryAllocLayout s l = (none, ⟨alignedHead s.head l.align, s.last⟩) := by
  rw [tryAllocLayout_eq s l h0 hov, if_pos hcap]

/-- Claim C10 witness: a u64 request with head 1 and limit 10 fails the
capacity check yet moves the head to the rounded address 8. -/
theorem claim_C10_witness :
    layoutU64.size ≠ 0 ∧ 1 + (layoutU64.align - 1) < USIZE ∧
    wrapSub 10 (alignedHead 1 layoutU64.align) ≤ layoutU64.size ∧
    tryAllocLayout ⟨1, 10⟩ layoutU64 =
      (none, ⟨alignedHead 1 layoutU64.align, 10⟩) ∧
    alignedHead 1 layoutU64.align = 8 :=
  ⟨by decide, by decide, by decide,
    claim_C10 ⟨1, 10⟩ layoutU64 (by decide) (by decide) (by decide), by decide⟩

theorem tryInsert_zero_eq {α : Type} (s : ArenaAlloc) (l : Layout) (v : α)
    (h0 : l.size = 0) :
    tryInsert s l v = (some 1, s, [Event.write 1 v]) := by
  simp [tryInsert, tryAllocLayout_zero s l h0]

theorem tryInsert_some_eq {α : Type} (s : ArenaAlloc) (l : Layout) (v : α)
    (h0 : l.size ≠ 0) (p : Nat) (s2 : ArenaAlloc) (tr : List (Event α))
    (h : tryInsert s l v = (some p, s2, tr)) :
    p = alignedHead s.head l.align ∧ l.align ∣ p ∧
      s2 = ⟨p + l.size, s.last⟩ ∧ tr = [Event.write p v] ∧ s.head ≤ p := by
  by_cases hov : s.head + (l.align - 1) < USIZE
  · have hA := tryAllocLayout_eq s l h0 hov
    by_cases hcap : wrapSub s.last (alignedHead s.head l.align) ≤ l.size
    · rw [if_pos hcap] at hA
      simp [tryInsert, hA] at h
    · rw [if_neg hcap] at hA
      have hu : tryInsert s l v =
          (some (alignedHead s.head l.align),
            (⟨alignedHead s.head l.align + l.size, s.last⟩ : ArenaAlloc),
            [Event.write (alignedHead s.head l.align) v]) := by
        simp [tryInsert, hA]
      rw [hu] at h
      simp only [Prod.mk.injEq, Option.some.injEq] at h
      obtain ⟨hp, hs, ht⟩ := h
      refine ⟨hp.symm, ?_, ?_, ?_, ?_⟩
      · rw [← hp]
        exact alignedHead_dvd s.head l.align
      · rw [← hs, ← hp]
      · rw [← ht, ← hp]
      · rw [← hp]
        exact alignedHead_ge s.head l.align l.align_pos
  · have hA := tryAllocLayout_ovf s l h0 (by omega)
    simp [tryInsert, hA] at h

theorem tryInsert_none_shape {α : Type} (s : ArenaAlloc) (l : Layout) (v : α)
    (s2 : ArenaAlloc) (ev : List (Event α))
    (h : tryInsert s l v = (none, s2, ev)) :
    ev = [Event.dropValue v] := by
  rcases hA : tryAllocLayout s l with ⟨r, s3⟩
  rcases r with _ | p
  · simp [tryInsert, hA] at h
    exact h.2.symm
  · simp [tryInsert, hA] at h

theorem tryInsert_head_mono {α : Type} (s : ArenaAlloc) (l : Layout) (v : α) :
    s.head ≤ (tryInsert s l v).2.1.head := by
  rcases hA : tryAllocLayout s l with ⟨r, s2⟩
  have hm := tryAllocLayout_head_mono s l
  rw [hA] at hm
  rcases r with _ | p
  · simp [tryInsert, hA]
    exact hm
  · simp [tryInsert, hA]
    exact hm

theorem tryInsertAllLoop_head_mono {α : Type} (l : Layout) (ptr : Nat) :
    ∀ (rest : List α) (n : Nat) (s : ArenaAlloc) (tr : List (Event α)),
      s.head ≤ (tryInsertAllLoop l ptr rest n s tr).2.1.head := by
  intro rest
  induction rest with
  | nil =>
    intro n s tr
    exact le_refl _
  | cons item rest ih =>
    intro n s tr
    rcases hti : tryInsert s l item with ⟨r, s2, ev⟩
    have hm := tryInsert_head_mono s l item
    rw [hti] at hm
    rcases r with _ | p
    · simp [tryInsertAllLoop, hti]
      exact hm
    · simp only [tryInsertAllLoop, hti]
      exact le_trans hm (ih (n + 1) s2 (tr ++ ev))

theorem tryInsertAll_head_mono {α : Type} (s : ArenaAlloc) (l : Layout)
    (items : List α) :
    s.head ≤ (tryInsertAll s l items).2.1.head := by
  cases items with
  | nil =>
    exact le_refl _
  | cons first rest =>
    rcases hti : tryInsert s l first with ⟨r, s2, ev⟩
    have hm := tryInsert_head_mono s l first
    rw [hti] at hm
    rcases r with _ | p
    · simp [tryInsertAll, hti]
      exact hm
    · simp only [tryInsertAll, hti]
      exact le_trans hm (tryInsertAllLoop_head_mono l p rest 1 s2 ev)

theorem tryInsertAllLoop_some {α : Type} (l : Layout) (ptr : Nat)
    (hz : l.size = 0 → ptr = 1) (hpa : l.size ≠ 0 → l.align ∣ ptr)
    (hdvd : l.align ∣ l.size) :
    ∀ (rest : List α) (n : Nat) (s : ArenaAlloc) (tr : List (Event α)),
      (l.size ≠ 0 → s.head = ptr + n * l.size) →
      ∀ q m s2 tr2,
        tryInsertAllLoop l ptr rest n s tr = (some (q, m), s2, tr2) →
        q = ptr ∧ m = n + rest.length ∧
        tr2 = tr ++ writesFrom (ptr + n * l.size) l.size rest := by
  intro rest
  induction rest with
  | nil =>
    intro n s tr hinv q m s2 tr2 h
    simp only [tryInsertAllLoop, Prod.mk.injEq, Option.some.injEq] at h
    obtain ⟨⟨hq, hm⟩, hs, ht⟩ := h
    refine ⟨hq.symm, ?_, ?_⟩
    · rw [List.length_nil, Nat.add_zero]
      exact hm.symm
    · rw [← ht]
      simp [writesFrom]
  | cons item rest ih =>
    intro n s tr hinv q m s2 tr2 h
    rcases hti : tryInsert s l item with ⟨r, s3, ev⟩
    rcases r with _ | p
    · simp [tryInsertAllLoop, hti] at h
    · simp only [tryInsertAllLoop, hti] at h
      by_cases h0 : l.size = 0
      · have hins := tryInsert_zero_eq s l item h0
        rw [hti] at hins
        simp only [Prod.mk.injEq, Option.some.injEq] at hins
        obtain ⟨hp1, hs3, hev⟩ := hins
        have hres := ih (n + 1) s3 (tr ++ ev) (fun hc => absurd h0 hc) q m s2 tr2 h
        obtain ⟨hq, hm, htr⟩ := hres
        refine ⟨hq, by simp [List.length_cons]; omega, ?_⟩
        rw [htr, hev]
        rw [writesFrom]
        rw [h0, hz h0]
        simp [writesFrom]
      · have hins0 := tryInsert_some_eq s l item h0 p s3 ev hti
        obtain ⟨hpA, hpdvd, hs3, hev, hple⟩ := hins0
        have hhead := hinv h0
        have hdh : l.align ∣ s.head := by
          rw [hhead]
          exact Nat.dvd_add (hpa h0) (Dvd.dvd.mul_left hdvd n)
        have hpeq : p = s.head := by
          rw [hpA, alignedHead_of_dvd s.head l.align l.align_pos hdh]
        have hinv2 : l.size ≠ 0 → s3.head = ptr + (n + 1) * l.size := by
          intro _
          rw [hs3]
          show p + l.size = ptr + (n + 1) * l.size
          rw [hpeq, hhead]
          ring
        have hres := ih (n + 1) s3 (tr ++ ev) hinv2 q m s2 tr2 h
        obtain ⟨hq, hm, htr⟩ := hres
        refine ⟨hq, by simp [List.length_cons]; omega, ?_⟩
        rw [htr, hev]
        rw [writesFrom]
        rw [hpeq, hhead]
        have harith : ptr + (n + 1) * l.size = ptr + n * l.size + l.size := by ring
        rw [harith]
        simp

theorem tryInsertAllLoop_none {α : Type} (l : Layout) (ptr : Nat)
    (hz : l.size = 0 → ptr = 1) (hpa : l.size ≠ 0 → l.align ∣ ptr)
    (hdvd : l.align ∣ l.size) :
    ∀ (rest : List α) (n : Nat) (s : ArenaAlloc) (tr : List (Event α)),
      (l.size ≠ 0 → s.head = ptr + n * l.size) →
      (∀ a v, Event.write a v ∈ tr → ∃ i, i < n ∧ a = ptr + i * l.size) →
      ∀ s2 tr2, tryInsertAllLoop l ptr rest n s tr = (none, s2, tr2) →
        ∀ a v, Event.write a v ∈ tr2 → Event.dropInPlace a ∈ tr2 := by
  intro rest
  induction rest with
  | nil =>
    intro n s tr _ _ s2 tr2 h
    simp [tryInsertAllLoop] at h
  | cons item rest ih =>
    intro n s tr hinv hwr s2 tr2 h
    rcases hti : tryInsert s l item with ⟨r, s3, ev⟩
    rcases r with _ | p
    · have hev := tryInsert_none_shape s l item s3 ev hti
      simp only [tryInsertAllLoop, hti, Prod.mk.injEq] at h
      obtain ⟨-, -, htr2⟩ := h
      intro a v hmem
      rw [← htr2] at hmem ⊢
      rcases List.mem_append.mp hmem with hmem1 | hmem2
      · rcases List.mem_append.mp hmem1 with hmemtr | hmemev
        · obtain ⟨i, hin, hai⟩ := hwr a v hmemtr
          apply List.mem_append.mpr
          right
          apply List.mem_map.mpr
          exact ⟨i, List.mem_range.mpr hin, by rw [hai]⟩
        · rw [hev] at hmemev
          simp at hmemev
      · obtain ⟨i, _, habs⟩ := List.mem_map.mp hmem2
        exact Event.noConfusion habs
    · simp only [tryInsertAllLoop, hti] at h
      by_cases h0 : l.size = 0
      · have hins := tryInsert_zero_eq s l item h0
        rw [hti] at hins
        simp only [Prod.mk.injEq, Option.some.injEq] at hins
        obtain ⟨hp1, hs3, hev⟩ := hins
        apply ih (n + 1) s3 (tr ++ ev) (fun hc => absurd h0 hc) ?_ s2 tr2 h
        intro a v hmm
        rcases List.mem_append.mp hmm with h1 | h2
        · obtain ⟨i, hi, ha⟩ := hwr a v h1
          exact ⟨i, by omega, ha⟩
        · rw [hev] at h2
          simp at h2
          refine ⟨n, by omega, ?_⟩
          rw [h2.1, h0, hz h0]
          simp
      · have hins0 := tryInsert_some_eq s l item h0 p s3 ev hti
        obtain ⟨hpA, hpdvd, hs3, hev, hple⟩ := hins0
        have hhead := hinv h0
        have hdh : l.align ∣ s.head := by
          rw [hhead]
          exact Nat.dvd_add (hpa h0) (Dvd.dvd.mul_left hdvd n)
        have hpeq : p = s.head := by
          rw [hpA, alignedHead_of_dvd s.head l.align l.align_pos hdh]
        have hinv2 : l.size ≠ 0 → s3.head = ptr + (n + 1) * l.size := by
          intro _
          rw [hs3]
          show p + l.size = ptr + (n + 1) * l.size
          rw [hpeq, hhead]
          ring
        apply ih (n + 1) s3 (tr ++ ev) hinv2 ?_ s2 tr2 h
        intro a v hmm
        rcases List.mem_append.mp hmm with h1 | h2
        · obtain ⟨i, hi, ha⟩ := hwr a v h1
          exact ⟨i, by omega, ha⟩
        · rw [hev] at h2
          simp at h2
          exact ⟨n, by omega, by rw [h2.1, hpeq, hhead]⟩

/-- Claim C4: when try_insert_all fails partway, every element already
written into the arena in this run has its destructor run in place
before the failure is surfaced (every write address in the trace also
carries a drop_in_place), no sequence handle is returned, and the bump
pointer is not rewound (the final head is at least the starting head). -/
theorem claim_C4 {α : Type} (s : ArenaAlloc) (l : Layout) (items : List α)
    (hdvd : l.align ∣ l.size)
    (hfail : (tryInsertAll s l items).1 = none) :
    (∀ a v, Event.write a v ∈ (tryInsertAll s l items).2.2 →
      Event.dropInPlace a ∈ (tryInsertAll s l items).2.2) ∧
    s.head ≤ (tryInsertAll s l items).2.1.head := by
  refine ⟨?_, tryInsertAll_head_mono s l items⟩
  cases items with
  | nil =>
    simp [tryInsertAll] at hfail
  | cons first rest =>
    rcases hti : tryInsert s l first with ⟨r, s3, ev⟩
    rcases r with _ | p
    · have hev := tryInsert_none_shape s l first s3 ev hti
      simp only [tryInsertAll, hti]
      rw [hev]
      intro a v hmem
      simp at hmem
    · have hAll : tryInsertAll s l (first :: rest) =
          tryInsertAllLoop l p rest 1 s3 ev := by
        simp [tryInsertAll, hti]
      rw [hAll] at hfail ⊢
      by_cases h0 : l.size = 0
      · have hins := tryInsert_zero_eq s l first h0
        rw [hti] at hins
        simp only [Prod.mk.injEq, Option.some.injEq] at hins
        obtain ⟨hp1, hs3, hev⟩ := hins
        rcases hloop : tryInsertAllLoop l p rest 1 s3 ev with ⟨rr, s4, tr4⟩
        rcases rr with _ | q
        · intro a v hmem
          apply tryInsertAllLoop_none l p (fun _ => hp1) (fun hc => absurd h0 hc)
            hdvd rest 1 s3 ev (fun hc => absurd h0 hc) ?_ s4 tr4 hloop a v hmem
          intro a2 v2 hmm
          rw [hev] at hmm
          simp at hmm
          refine ⟨0, by omega, ?_⟩
          rw [hmm.1, hp1]
          simp
        · rw [hloop] at hfail
          exact Option.noConfusion hfail
      · have hins0 := tryInsert_some_eq s l first h0 p s3 ev hti
        obtain ⟨hpA, hpdvd, hs3, hev, hple⟩ := hins0
        rcases hloop : tryInsertAllLoop l p rest 1 s3 ev with ⟨rr, s4, tr4⟩
        rcases rr with _ | q
        · intro a v hmem
          apply tryInsertAllLoop_none l p (fun hc => absurd hc h0) (fun _ => hpdvd)
            hdvd rest 1 s3 ev ?_ ?_ s4 tr4 hloop a v hmem
          · intro _
            rw [hs3]
            show p + l.size = p + 1 * l.size
            ring
          · intro a2 v2 hmm
            rw [hev] at hmm
            simp at hmm
            refine ⟨0, by omega, ?_⟩
            rw [hmm.1]
            simp
        · rw [hloop] at hfail
          exact Option.noConfusion hfail

/-- Claim C4 witness: inserting three u64 values into a cursor with 20
bytes of room fails on the third, and the trace drops in place both
elements already written, the head having only advanced. -/
theorem claim_C4_witness :
    layoutU64.align ∣ layoutU64.size ∧
    (tryInsertAll ⟨0, 20⟩ layoutU64 [(10:Nat), 20, 30]).1 = none ∧
    ((∀ a v, Event.write a v ∈ (tryInsertAll ⟨0, 20⟩ layoutU64 [(10:Nat), 20, 30]).2.2 →
      Event.dropInPlace a ∈ (tryInsertAll ⟨0, 20⟩ layoutU64 [(10:Nat), 20, 30]).2.2) ∧
    (0:Nat) ≤ (tryInsertAll ⟨0, 20⟩ layoutU64 [(10:Nat), 20, 30]).2.1.head) :=
  ⟨by decide, by decide,
    claim_C4 ⟨0, 20⟩ layoutU64 [10, 20, 30] (by decide) (by decide)⟩

/-- Claim C5: when try_insert_all succeeds, the returned sequence handle
has exactly as many elements as the iterator yielded, and the trace is
precisely the contiguous run of writes in iterator order starting at the
returned base address with the element size as stride. -/
theorem claim_C5 {α : Type} (s : ArenaAlloc) (l : Layout) (items : List α)
    (hdvd : l.align ∣ l.size) (p n : Nat) (s2 : ArenaAlloc) (tr : List (Event α))
    (h : tryInsertAll s l items = (some (p, n), s2, tr)) :
    n = items.length ∧ tr = writesFrom p l.size items := by
  cases items with
  | nil =>
    simp only [tryInsertAll, Prod.mk.injEq, Option.some.injEq] at h
    obtain ⟨⟨hp, hn⟩, hs, htr⟩ := h
    exact ⟨hn.symm, by rw [← htr]; simp [writesFrom]⟩
  | cons first rest =>
    rcases hti : tryInsert s l first with ⟨r, s3, ev⟩
    rcases r with _ | p1
    · simp [tryInsertAll, hti] at h
    · simp only [tryInsertAll, hti] at h
      by_cases h0 : l.size = 0
      · have hins := tryInsert_zero_eq s l first h0
        rw [hti] at hins
        simp only [Prod.mk.injEq, Option.some.injEq] at hins
        obtain ⟨hp1, hs3, hev⟩ := hins
        have hres := tryInsertAllLoop_some l p1 (fun _ => hp1)
          (fun hc => absurd h0 hc) hdvd rest 1 s3 ev (fun hc => absurd h0 hc)
          p n s2 tr h
        obtain ⟨hq, hm, htr⟩ := hres
        refine ⟨by simp [List.length_cons]; omega, ?_⟩
        rw [htr, hev, hq, writesFrom]
        rw [h0, hp1]
        simp [writesFrom]
      · have hins0 := tryInsert_some_eq s l first h0 p1 s3 ev hti
        obtain ⟨hpA, hpdvd, hs3, hev, hple⟩ := hins0
        have hinv2 : l.size ≠ 0 → s3.head = p1 + 1 * l.size := by
          intro _
          rw [hs3]
          show p1 + l.size = p1 + 1 * l.size
          ring
        have hres := tryInsertAllLoop_some l p1 (fun hc => absurd hc h0)
          (fun _ => hpdvd) hdvd rest 1 s3 ev hinv2 p n s2 tr h
        obtain ⟨hq, hm, htr⟩ := hres
        refine ⟨by simp [List.length_cons]; omega, ?_⟩
        rw [htr, hev, hq, writesFrom]
        have harith : p1 + 1 * l.size = p1 + l.size := by ring
        rw [harith]
        simp

/-- Claim C5 witness: three u64 values inserted into a roomy cursor come
back as a three-element contiguous handle at base 0 with stride 8, in
order. -/
theorem claim_C5_witness :
    layoutU64.align ∣ layoutU64.size ∧
    tryInsertAll ⟨0, 100⟩ layoutU64 [(1:Nat), 2, 3] =
      (some (0, 3), ⟨24, 100⟩,
        [Event.write 0 1, Event.write 8 2, Event.write 16 3]) ∧
    ((3:Nat) = [(1:Nat), 2, 3].length ∧
      [Event.write (0:Nat) (1:Nat), Event.write 8 2, Event.write 16 3] =
        writesFrom 0 layoutU64.size [1, 2, 3]) :=
  ⟨by decide, by decide,
    claim_C5 ⟨0, 100⟩ layoutU64 [1, 2, 3] (by decide) 0 3 ⟨24, 100⟩ _ (by decide)⟩

end ArenaModel
